import Mathlib

/-!
Verification of the `muse` music-theory library (`src/muse/core.py`) against its
natural-language specification.

The Python module is embedded shallowly: the class-level constant dictionaries
become Lean functions returning `Option`, `dataclass` types become structures,
and every Python operation that can raise becomes a function into
`Except PyError`.  Machine arithmetic is modelled with `Int`; Python's `//` and
`%` agree with Lean's `Int./` (Euclidean division) and `Int.%` for the positive
divisor `12` used throughout, and in `Pitch.step` they are only applied to a
target offset already checked to be non-negative, where all division
conventions coincide.
-/

deriving instance DecidableEq for Except

namespace Muse

/-- Python exception classes raised by `muse.core`, as an error type:
`valueError` for `ValueError` (invalid note name / unknown scale name),
`belowRangeFloor` for the `ArithmeticError("Cannot step below C0")` raised by
`Pitch.step`, and `keyError` for a dictionary lookup miss. -/
inductive PyError where
  | valueError
  | belowRangeFloor
  | keyError
deriving DecidableEq

/-- `PitchMapping.PITCHES_TO_INDEX` (core.py lines 8-30): note-name string to
pitch class 0..11; absent keys give `none` (Python `KeyError` / membership
test failure). -/
def PITCHES_TO_INDEX : String → Option Nat
  | "C" => some 0
  | "B#" => some 0
  | "C#" => some 1
  | "Db" => some 1
  | "D" => some 2
  | "D#" => some 3
  | "Eb" => some 3
  | "E" => some 4
  | "Fb" => some 4
  | "F" => some 5
  | "E#" => some 5
  | "F#" => some 6
  | "Gb" => some 6
  | "G" => some 7
  | "G#" => some 8
  | "Ab" => some 8
  | "A" => some 9
  | "A#" => some 10
  | "Bb" => some 10
  | "B" => some 11
  | "Cb" => some 11
  | _ => none

/-- `PitchMapping.INDEX_TO_PITCHES` (core.py lines 33-46): pitch class to the
pair (sharp spelling, flat spelling).  The entry for class 4 is `("E", "F")`,
exactly as in the source. -/
def INDEX_TO_PITCHES : Nat → Option (String × String)
  | 0 => some ("C", "C")
  | 1 => some ("C#", "Db")
  | 2 => some ("D", "D")
  | 3 => some ("D#", "Eb")
  | 4 => some ("E", "F")
  | 5 => some ("F", "F")
  | 6 => some ("F#", "Gb")
  | 7 => some ("G", "G")
  | 8 => some ("G#", "Ab")
  | 9 => some ("A", "A")
  | 10 => some ("A#", "Bb")
  | 11 => some ("B", "B")
  | _ => none

/-- The sharp spelling of a pitch class: first component of the
`INDEX_TO_PITCHES` entry (the spec's `namesOf(pitchClass, preferSharp=true)`). -/
def sharpName (c : Nat) : String := ((INDEX_TO_PITCHES c).getD ("", "")).1

/-- The flat spelling of a pitch class: second component of the
`INDEX_TO_PITCHES` entry (the spec's `namesOf(pitchClass, preferSharp=false)`,
what Python's tuple index `-1` selects). -/
def flatName (c : Nat) : String := ((INDEX_TO_PITCHES c).getD ("", "")).2

/-- The `Pitch` dataclass: a note-name string and an octave. -/
structure Pitch where
  note : String
  octave : Int
deriving DecidableEq

/-- A placeholder pitch used as the default for out-of-range list indexing in
statements; its note is not a valid name, so it can never be confused with a
pitch produced by the library. -/
def dummyPitch : Pitch := ⟨"", 0⟩

/-- A `Pitch` is valid when its note is a key of `PITCHES_TO_INDEX`; this is
exactly the validation performed by `Pitch.__post_init__` (core.py lines
57-59). -/
def Pitch.valid (p : Pitch) : Prop := (PITCHES_TO_INDEX p.note).isSome = true

instance (p : Pitch) : Decidable p.valid := by
  unfold Pitch.valid
  infer_instance

/-- Pitch construction (`Pitch.__post_init__`): rejects an unrecognized note
name with `ValueError`. -/
def Pitch.make (note : String) (octave : Int) : Except PyError Pitch :=
  match PITCHES_TO_INDEX note with
  | some _ => Except.ok ⟨note, octave⟩
  | none => Except.error PyError.valueError

/-- The cached `_offset_c0` of a pitch (core.py line 60):
`PITCHES_TO_INDEX[note] + 12 * octave`.  For an invalid note (which
construction rejects) the value is irrelevant and defaults to 0. -/
def Pitch.offset_c0 (p : Pitch) : Int :=
  match PITCHES_TO_INDEX p.note with
  | some c => (c : Int) + 12 * p.octave
  | none => 0

/-- `Pitch.step` (core.py lines 78-90).  Returns `self` unchanged when
`semitones == 0`; raises `ArithmeticError` when the target offset is negative;
otherwise spells the target pitch class sharp when stepping up and flat when
stepping down (Python tuple index `0 if semitones > 0 else -1`), with the
octave kept when `reset_octave` and recomputed as `target // 12` otherwise.
The target offset is non-negative at the point of the divisions, so Lean's
Euclidean `%` and `/` agree with Python's floor `%` and `//` there. -/
def Pitch.step (p : Pitch) (semitones : Int) (reset_octave : Bool) : Except PyError Pitch :=
  if semitones = 0 then Except.ok p
  else if p.offset_c0 + semitones < 0 then Except.error PyError.belowRangeFloor
  else
    match INDEX_TO_PITCHES ((p.offset_c0 + semitones) % 12).toNat with
    | some names =>
        Except.ok ⟨if semitones > 0 then names.1 else names.2,
                   if reset_octave then p.octave else (p.offset_c0 + semitones) / 12⟩
    | none => Except.error PyError.keyError

/-- `Interval.SHORT_NAMES` (core.py lines 95-109), keyed by the `Int` offset
that `Interval.name` computes; keys outside 0..12 are absent (`KeyError`). -/
def SHORT_NAMES : Int → Option String
  | 0 => some "P1"
  | 1 => some "m2"
  | 2 => some "M2"
  | 3 => some "m3"
  | 4 => some "M3"
  | 5 => some "P4"
  | 6 => some "TT"
  | 7 => some "P5"
  | 8 => some "m6"
  | 9 => some "M6"
  | 10 => some "m7"
  | 11 => some "M7"
  | 12 => some "P8"
  | _ => none

/-- `Interval.LONG_NAMES` (core.py lines 110-124). -/
def LONG_NAMES : Int → Option String
  | 0 => some "Unison"
  | 1 => some "Minor Second"
  | 2 => some "Major Second"
  | 3 => some "Minor Third"
  | 4 => some "Major Third"
  | 5 => some "Perfect Fourth"
  | 6 => some "Tritone"
  | 7 => some "Perfect Fifth"
  | 8 => some "Minor Sixth"
  | 9 => some "Major Sixth"
  | 10 => some "Minor Seventh"
  | 11 => some "Major Seventh"
  | 12 => some "Octave"
  | _ => none

/-- The `Interval` dataclass: a bare signed semitone count, no validation. -/
structure Interval where
  interval : Int
deriving DecidableEq

/-- `Interval.name` (core.py lines 128-133): computes
`offset = interval if interval < 0 else 12 - interval` and looks it up in the
short-name table (the property always takes the `short=True` branch). -/
def Interval.name (i : Interval) : Option String :=
  SHORT_NAMES (if i.interval < 0 then i.interval else 12 - i.interval)

/-- `ScaleSequence.SCALES` (core.py lines 138-148), including the source's
`"IONION"` key and the 8-entry `MIXOLYDIAN` pattern, exactly as written. -/
def SCALES : String → Option (List Int)
  | "MAJOR" => some [2, 2, 1, 2, 2, 2, 1]
  | "IONION" => some [2, 2, 1, 2, 2, 2, 1]
  | "DORIAN" => some [2, 1, 2, 2, 2, 1, 2]
  | "PHRYGIAN" => some [1, 2, 2, 2, 1, 2, 2]
  | "LYDIAN" => some [2, 2, 2, 1, 2, 2, 1]
  | "MIXOLYDIAN" => some [2, 2, 1, 2, 2, 1, 2, 2]
  | "AEOLIAN" => some [2, 1, 2, 2, 1, 2, 2]
  | "MINOR" => some [2, 1, 2, 2, 1, 2, 2]
  | "LOCRIAN" => some [1, 2, 2, 1, 2, 2, 2]
  | _ => none

/-- Python's `str.upper()` on the ASCII scale names, modelled as an uppercase
map over the characters. -/
def pyUpper (s : String) : String := ⟨s.data.map Char.toUpper⟩

/-- The loop body of `ScaleSequence.__post_init__` (core.py lines 158-160):
starting after `root`, each interval extends the list with
`pitches[-1].step(interval, reset_octave=True)`; a raised exception aborts
construction. -/
def extendPitches (last : Pitch) : List Int → Except PyError (List Pitch)
  | [] => Except.ok []
  | interval :: rest =>
    match last.step interval true with
    | Except.ok p =>
      match extendPitches p rest with
      | Except.ok tail => Except.ok (p :: tail)
      | Except.error e => Except.error e
    | Except.error e => Except.error e

/-- `ScaleSequence.__post_init__` with an explicit step pattern: the computed
`pitches` list starts with the root. -/
def ScaleSequence.pitchesOf (root : Pitch) (pattern : List Int) : Except PyError (List Pitch) :=
  match extendPitches root pattern with
  | Except.ok rest => Except.ok (root :: rest)
  | Except.error e => Except.error e

/-- `ScaleSequence.__post_init__` with a named pattern (core.py lines 153-161):
the name is uppercased and looked up in `SCALES`; an unknown name raises
`ValueError`. -/
def ScaleSequence.make (root : Pitch) (sequence : String) : Except PyError (List Pitch) :=
  match SCALES (pyUpper sequence) with
  | some pattern => ScaleSequence.pitchesOf root pattern
  | none => Except.error PyError.valueError

/-- `ScaleSequence.triads` (core.py lines 163-175): for `i` in
`range(n - 1)` it yields `(pitches[i], pitches[(i+2) % n], pitches[(i+4) % n])`,
plus `pitches[(i+6) % n]` in extended mode.  The lazy generator is modelled as
the list of the tuples it yields (each tuple as a list); re-accessing the
property restarts the generator, which for this pure list is automatic. -/
def ScaleSequence.triadsGen (pitches : List Pitch) (extended : Bool) : List (List Pitch) :=
  (List.range (pitches.length - 1)).map fun i =>
    if extended then
      [pitches.getD i dummyPitch,
       pitches.getD ((i + 2) % pitches.length) dummyPitch,
       pitches.getD ((i + 4) % pitches.length) dummyPitch,
       pitches.getD ((i + 6) % pitches.length) dummyPitch]
    else
      [pitches.getD i dummyPitch,
       pitches.getD ((i + 2) % pitches.length) dummyPitch,
       pitches.getD ((i + 4) % pitches.length) dummyPitch]

/-- Modelled from the spec: the `Fretboard` component (spec section 4.5) is not
present under `src/`; per the spec, each fret of a string maps to
`p.step(f)` with the default `resetOctave = false`.  This computes one
string's row `[p.step(f) for f in frets]`, propagating a raised exception. -/
def collectSteps (p : Pitch) : List Nat → Except PyError (List Pitch)
  | [] => Except.ok []
  | f :: rest =>
    match p.step (f : Int) false with
    | Except.ok q =>
      match collectSteps p rest with
      | Except.ok qs => Except.ok (q :: qs)
      | Except.error e => Except.error e
    | Except.error e => Except.error e

/-- Modelled from the spec: one string's fret row,
`[p.step(f) for f in 0..fretCount]` (spec section 4.5). -/
def Fretboard.row (p : Pitch) (fretCount : Nat) : Except PyError (List Pitch) :=
  collectSteps p (List.range (fretCount + 1))

/-- Modelled from the spec: `Fretboard.construct(tuning, fretCount)` (spec
section 4.5) computes one row per open-string pitch of the tuning, in order. -/
def Fretboard.board : List Pitch → Nat → Except PyError (List (List Pitch))
  | [], _ => Except.ok []
  | p :: rest, fretCount =>
    match Fretboard.row p fretCount, Fretboard.board rest fretCount with
    | Except.ok r, Except.ok rs => Except.ok (r :: rs)
    | Except.error e, _ => Except.error e
    | _, Except.error e => Except.error e

/-- The leading letter of a pitch's note name (the spec's `letter()`,
Python `note[0]`). -/
def Pitch.letter (p : Pitch) : Char := p.note.data.headD '?'

/-- Modelled from the spec: the default 6-string standard tuning used by the
`Fretboard` examples of the spec (E2 A2 D3 G3 B3 E4); the `Fretboard` class and
its default tuning are not under `src/`. -/
def standardTuning : List Pitch :=
  [⟨"E", 2⟩, ⟨"A", 2⟩, ⟨"D", 3⟩, ⟨"G", 3⟩, ⟨"B", 3⟩, ⟨"E", 4⟩]

/-! ## Table lemmas -/

/-- Every pitch class 0..11 has an `INDEX_TO_PITCHES` entry, whose components
are its sharp and flat spellings. -/
theorem idx_table : ∀ n : Nat, n < 12 → INDEX_TO_PITCHES n = some (sharpName n, flatName n) := by
  decide

/-- Every sharp spelling resolves back to its own pitch class. -/
theorem sharp_resolves : ∀ n : Nat, n < 12 → PITCHES_TO_INDEX (sharpName n) = some n := by
  decide

/-- Every flat spelling except the one of class 4 resolves back to its own
pitch class (the class-4 entry is `"F"`, which resolves to 5). -/
theorem flat_resolves :
    ∀ n : Nat, n < 12 → n ≠ 4 → PITCHES_TO_INDEX (flatName n) = some n := by
  decide

/-! ## `Pitch` lemmas -/

/-- The cached offset of a pitch in terms of its pitch class. -/
theorem offset_c0_eq (p : Pitch) (c : Nat) (hc : PITCHES_TO_INDEX p.note = some c) :
    p.offset_c0 = (c : Int) + 12 * p.octave := by
  unfold Pitch.offset_c0
  rw [hc]

/-- The cached offset of a literally constructed pitch. -/
theorem offset_c0_mk (note : String) (o : Int) (c : Nat) (hc : PITCHES_TO_INDEX note = some c) :
    (Pitch.mk note o).offset_c0 = (c : Int) + 12 * o := by
  unfold Pitch.offset_c0
  simp [hc]

/-- `step(0)` returns the pitch itself (the Python method returns `self`
before any range check or re-spelling). -/
theorem Pitch.step_zero (p : Pitch) (ro : Bool) : p.step 0 ro = Except.ok p := by
  unfold Pitch.step
  simp

/-- Stepping by a positive amount (with `reset_octave=False`) yields the sharp
spelling of the target class and the octave `target // 12`. -/
theorem Pitch.step_pos_false (p : Pitch) (s : Int) (hs : 0 < s) (ht : 0 ≤ p.offset_c0 + s) :
    p.step s false = Except.ok
      ⟨sharpName ((p.offset_c0 + s) % 12).toNat, (p.offset_c0 + s) / 12⟩ := by
  have h1 : ¬s = 0 := by omega
  have h2 : ¬p.offset_c0 + s < 0 := by omega
  have hm : ((p.offset_c0 + s) % 12).toNat < 12 := by omega
  unfold Pitch.step
  rw [if_neg h1, if_neg h2, idx_table _ hm]
  simp [hs]

/-- Stepping by a positive amount with `reset_octave=True` yields the sharp
spelling of the target class and keeps the receiver's octave. -/
theorem Pitch.step_pos_true (p : Pitch) (s : Int) (hs : 0 < s) (ht : 0 ≤ p.offset_c0 + s) :
    p.step s true = Except.ok
      ⟨sharpName ((p.offset_c0 + s) % 12).toNat, p.octave⟩ := by
  have h1 : ¬s = 0 := by omega
  have h2 : ¬p.offset_c0 + s < 0 := by omega
  have hm : ((p.offset_c0 + s) % 12).toNat < 12 := by omega
  unfold Pitch.step
  rw [if_neg h1, if_neg h2, idx_table _ hm]
  simp [hs]

/-- Stepping by a negative amount (with `reset_octave=False`) yields the flat
spelling of the target class and the octave `target // 12`. -/
theorem Pitch.step_neg_false (p : Pitch) (s : Int) (hs : s < 0) (ht : 0 ≤ p.offset_c0 + s) :
    p.step s false = Except.ok
      ⟨flatName ((p.offset_c0 + s) % 12).toNat, (p.offset_c0 + s) / 12⟩ := by
  have h1 : ¬s = 0 := by omega
  have h2 : ¬p.offset_c0 + s < 0 := by omega
  have h3 : ¬s > 0 := by omega
  have hm : ((p.offset_c0 + s) % 12).toNat < 12 := by omega
  unfold Pitch.step
  rw [if_neg h1, if_neg h2, idx_table _ hm]
  simp [h3]

/-! ## Claim C1 -/

/-- Claim C1 (code bug): the pitch-class tables are NOT mutually consistent.
The flat spelling stored for class 4 is `"F"`, which `PITCHES_TO_INDEX`
resolves to 5, not 4 — contradicting the source's own comment that the second
tuple component is the flat version of the class (the table itself maps `"Fb"`
to 4). -/
theorem C1_table_code_bug :
    INDEX_TO_PITCHES 4 = some ("E", "F") ∧
    PITCHES_TO_INDEX "E" = some 4 ∧
    PITCHES_TO_INDEX "F" = some 5 ∧
    PITCHES_TO_INDEX (flatName 4) ≠ some 4 := by decide

/-! ## Claim C2 -/

/-- Claim C2 (counterexample): `step` does not always land on the target
absolute offset.  `G4.step(-3)` (target offset 52, class 4) returns `F4` at
offset 53 because of the class-4 flat-spelling slip; and with
`resetOctave=True`, `B4.step(1)` keeps octave 4 and returns `C4` at offset 48
instead of 60. -/
theorem C2_counterexample :
    ((Pitch.mk "G" 4).step (-3) false = Except.ok (Pitch.mk "F" 4) ∧
      (Pitch.mk "F" 4).offset_c0 = 53 ∧ (Pitch.mk "G" 4).offset_c0 + (-3) = 52) ∧
    ((Pitch.mk "B" 4).step 1 true = Except.ok (Pitch.mk "C" 4) ∧
      (Pitch.mk "C" 4).offset_c0 = 48 ∧ (Pitch.mk "B" 4).offset_c0 + 1 = 60) := by decide

/-- Claim C2 (amended): for a valid pitch and a non-negative target offset,
`step` with `resetOctave=False` returns a pitch at exactly the target offset
whenever the step is non-negative or the target pitch class is not 4; when the
step is negative and the target class is 4, the mis-spelled flat entry lands
one semitone high.  (With `resetOctave=True` the octave is kept, so the
target-offset equation does not hold across octave boundaries at all.) -/
theorem C2_amended (p : Pitch) (s : Int) (hv : p.valid) (ht : 0 ≤ p.offset_c0 + s) :
    (0 ≤ s ∨ (p.offset_c0 + s) % 12 ≠ 4 →
      ∃ q, p.step s false = Except.ok q ∧ q.offset_c0 = p.offset_c0 + s) ∧
    (s < 0 → (p.offset_c0 + s) % 12 = 4 →
      ∃ q, p.step s false = Except.ok q ∧ q.offset_c0 = p.offset_c0 + s + 1) := by
  constructor
  · intro hcond
    by_cases hs0 : s = 0
    · exact ⟨p, by subst hs0; exact Pitch.step_zero p false, by omega⟩
    · by_cases hspos : 0 < s
      · have hm : ((p.offset_c0 + s) % 12).toNat < 12 := by omega
        refine ⟨_, Pitch.step_pos_false p s hspos ht, ?_⟩
        rw [offset_c0_mk _ _ _ (sharp_resolves _ hm)]
        omega
      · have hneg : s < 0 := by omega
        have hc4 : (p.offset_c0 + s) % 12 ≠ 4 := by
          rcases hcond with h | h
          · omega
          · exact h
        refine ⟨_, Pitch.step_neg_false p s hneg ht, ?_⟩
        rw [offset_c0_mk _ _ _ (flat_resolves _ (by omega) (by omega))]
        omega
  · intro hneg hc4
    have h4 : ((p.offset_c0 + s) % 12).toNat = 4 := by omega
    refine ⟨_, Pitch.step_neg_false p s hneg ht, ?_⟩
    rw [h4, offset_c0_mk _ _ _ (show PITCHES_TO_INDEX (flatName 4) = some 5 by decide)]
    omega

/-- Witness for the amended C2 at a concrete input. -/
theorem C2_amended_witness :
    ∃ q, (Pitch.mk "C" 4).step 5 false = Except.ok q ∧
      q.offset_c0 = (Pitch.mk "C" 4).offset_c0 + 5 :=
  (C2_amended (Pitch.mk "C" 4) 5 (by decide) (by decide)).1 (Or.inl (by norm_num))

/-! ## Claim C4 -/

/-- Claim C4 (code bug): the scale catalog misspells the Ionian mode as
`"IONION"`, so constructing a `ScaleSequence` with the name `"IONIAN"` raises
`ValueError` while the misspelled `"IONION"` succeeds. -/
theorem C4_scale_catalog_code_bug :
    ScaleSequence.make ⟨"C", 4⟩ "IONIAN" = Except.error PyError.valueError ∧
    SCALES (pyUpper "IONIAN") = none ∧
    ScaleSequence.make ⟨"C", 4⟩ "IONION" = Except.ok
      [⟨"C", 4⟩, ⟨"D", 4⟩, ⟨"E", 4⟩, ⟨"F", 4⟩, ⟨"G", 4⟩, ⟨"A", 4⟩, ⟨"B", 4⟩, ⟨"C", 4⟩] ∧
    SCALES "IONION" = some [2, 2, 1, 2, 2, 2, 1] := by decide

/-! ## Claim C5 -/

/-- Claim C5 (confirmed): for `0 ≤ interval ≤ 12`, `Interval.name` looks up
the short-name table at index `12 - interval`; in particular interval 0 is
named `"P8"` and interval 12 is named `"P1"`. -/
theorem C5_interval_name (i : Int) (h0 : 0 ≤ i) (h12 : i ≤ 12) :
    (Interval.mk i).name = SHORT_NAMES (12 - i) ∧
    (Interval.mk 0).name = some "P8" ∧
    (Interval.mk 12).name = some "P1" := by
  refine ⟨?_, by decide, by decide⟩
  show SHORT_NAMES (if i < 0 then i else 12 - i) = SHORT_NAMES (12 - i)
  rw [if_neg (by omega)]

/-- Witness for C5 at a concrete input. -/
theorem C5_interval_name_witness :
    (Interval.mk 3).name = SHORT_NAMES (12 - 3) ∧
    (Interval.mk 0).name = some "P8" ∧
    (Interval.mk 12).name = some "P1" :=
  C5_interval_name 3 (by norm_num) (by norm_num)

/-! ## Claim C7 -/

/-- Claim C7 (code bug): `step(0)` does return the pitch itself, but the
round trip `E4.step(1).step(-1)` returns `F4` (offset 53) instead of a pitch
at E4's offset 52, because stepping down into class 4 uses the mis-spelled
flat entry `"F"`. -/
theorem C7_roundtrip_code_bug :
    (Pitch.mk "E" 4).step 0 false = Except.ok (Pitch.mk "E" 4) ∧
    ((Pitch.mk "E" 4).step 1 false).bind (fun q => q.step (-1) false) =
      Except.ok (Pitch.mk "F" 4) ∧
    (Pitch.mk "E" 4).offset_c0 = 52 ∧
    (Pitch.mk "F" 4).offset_c0 = 53 := by decide

/-! ## Claim C10 -/

/-- A negative key is absent from the short-name table. -/
theorem shortNames_none_of_neg (x : Int) (hx : x < 0) : SHORT_NAMES x = none := by
  cases x with
  | ofNat n => exact absurd hx (Int.not_lt.mpr (Int.ofNat_zero_le n))
  | negSucc k => rfl

/-- Claim C10 (confirmed): accessing `name` on an `Interval` whose integer is
negative or greater than 12 fails the table lookup, because the computed
offset (`interval` itself, or `12 - interval`) is negative and hence outside
the 0..12 key domain. -/
theorem C10_name_lookup_out_of_range (i : Int) (h : i < 0 ∨ 12 < i) :
    (Interval.mk i).name = none := by
  show SHORT_NAMES (if i < 0 then i else 12 - i) = none
  rcases h with h | h
  · rw [if_pos h]
    exact shortNames_none_of_neg i h
  · rw [if_neg (by omega)]
    exact shortNames_none_of_neg _ (by omega)

/-- Witness for C10 at a concrete input. -/
theorem C10_name_lookup_witness : (Interval.mk 13).name = none :=
  C10_name_lookup_out_of_range 13 (Or.inr (by norm_num))

/-! ## Claim C3 -/

/-- Stepping a sharp-spelled pitch up by `s` semitones with
`reset_octave=True` advances its class by `s` modulo 12, keeps the sharp
spelling, and keeps the octave. -/
theorem step_sharp_chain (n : Nat) (hn : n < 12) (o : Int) (ho : 0 ≤ o) (s : Int) (hs : 0 < s) :
    (Pitch.mk (sharpName n) o).step s true =
      Except.ok ⟨sharpName (((n : Int) + s) % 12).toNat, o⟩ := by
  have hoff : (Pitch.mk (sharpName n) o).offset_c0 = (n : Int) + 12 * o :=
    offset_c0_mk _ _ _ (sharp_resolves n hn)
  have ht : 0 ≤ (Pitch.mk (sharpName n) o).offset_c0 + s := by rw [hoff]; omega
  have h := Pitch.step_pos_true (Pitch.mk (sharpName n) o) s hs ht
  rw [hoff] at h
  have e : (((n : Int) + 12 * o + s) % 12).toNat = (((n : Int) + s) % 12).toNat := by omega
  rw [e] at h
  exact h

/-- Claim C3 (amended): a `ScaleSequence` built from a valid root and the
7-step MAJOR pattern advances pitch classes by the pattern steps modulo 12
with the sharp spelling at every degree, and every pitch — including the 8th —
keeps the root's octave.  The letter names are NOT corrected to the rotated
natural cycle (they can repeat, see the counterexample), and the 8th pitch has
the root's own class and octave rather than being the root transposed up an
octave. -/
theorem C3_amended (root : Pitch) (c : Nat) (hc : PITCHES_TO_INDEX root.note = some c)
    (ho : 0 ≤ root.octave) :
    ScaleSequence.make root "MAJOR" = Except.ok
      [root,
       ⟨sharpName (((c : Int) + 2) % 12).toNat, root.octave⟩,
       ⟨sharpName (((c : Int) + 4) % 12).toNat, root.octave⟩,
       ⟨sharpName (((c : Int) + 5) % 12).toNat, root.octave⟩,
       ⟨sharpName (((c : Int) + 7) % 12).toNat, root.octave⟩,
       ⟨sharpName (((c : Int) + 9) % 12).toNat, root.octave⟩,
       ⟨sharpName (((c : Int) + 11) % 12).toNat, root.octave⟩,
       ⟨sharpName (((c : Int) + 12) % 12).toNat, root.octave⟩] := by
  have hoff := offset_c0_eq root c hc
  have h1 : root.step 2 true =
      Except.ok ⟨sharpName (((c : Int) + 2) % 12).toNat, root.octave⟩ := by
    have ht : 0 ≤ root.offset_c0 + 2 := by omega
    have h := Pitch.step_pos_true root 2 (by norm_num) ht
    rw [hoff] at h
    have e : (((c : Int) + 12 * root.octave + 2) % 12).toNat = (((c : Int) + 2) % 12).toNat := by
      omega
    rw [e] at h
    exact h
  have h2 := step_sharp_chain (((c : Int) + 2) % 12).toNat (by omega) root.octave ho 2
    (by norm_num)
  have e2 : (((((c : Int) + 2) % 12).toNat : Int) + 2) % 12 = ((c : Int) + 4) % 12 := by omega
  rw [e2] at h2
  have h3 := step_sharp_chain (((c : Int) + 4) % 12).toNat (by omega) root.octave ho 1
    (by norm_num)
  have e3 : (((((c : Int) + 4) % 12).toNat : Int) + 1) % 12 = ((c : Int) + 5) % 12 := by omega
  rw [e3] at h3
  have h4 := step_sharp_chain (((c : Int) + 5) % 12).toNat (by omega) root.octave ho 2
    (by norm_num)
  have e4 : (((((c : Int) + 5) % 12).toNat : Int) + 2) % 12 = ((c : Int) + 7) % 12 := by omega
  rw [e4] at h4
  have h5 := step_sharp_chain (((c : Int) + 7) % 12).toNat (by omega) root.octave ho 2
    (by norm_num)
  have e5 : (((((c : Int) + 7) % 12).toNat : Int) + 2) % 12 = ((c : Int) + 9) % 12 := by omega
  rw [e5] at h5
  have h6 := step_sharp_chain (((c : Int) + 9) % 12).toNat (by omega) root.octave ho 2
    (by norm_num)
  have e6 : (((((c : Int) + 9) % 12).toNat : Int) + 2) % 12 = ((c : Int) + 11) % 12 := by omega
  rw [e6] at h6
  have h7 := step_sharp_chain (((c : Int) + 11) % 12).toNat (by omega) root.octave ho 1
    (by norm_num)
  have e7 : (((((c : Int) + 11) % 12).toNat : Int) + 1) % 12 = ((c : Int) + 12) % 12 := by omega
  rw [e7] at h7
  have hU : SCALES (pyUpper "MAJOR") = some [2, 2, 1, 2, 2, 2, 1] := by decide
  unfold ScaleSequence.make
  rw [hU]
  show ScaleSequence.pitchesOf root [2, 2, 1, 2, 2, 2, 1] = _
  unfold ScaleSequence.pitchesOf
  have hE : extendPitches root [2, 2, 1, 2, 2, 2, 1] = Except.ok
      [⟨sharpName (((c : Int) + 2) % 12).toNat, root.octave⟩,
       ⟨sharpName (((c : Int) + 4) % 12).toNat, root.octave⟩,
       ⟨sharpName (((c : Int) + 5) % 12).toNat, root.octave⟩,
       ⟨sharpName (((c : Int) + 7) % 12).toNat, root.octave⟩,
       ⟨sharpName (((c : Int) + 9) % 12).toNat, root.octave⟩,
       ⟨sharpName (((c : Int) + 11) % 12).toNat, root.octave⟩,
       ⟨sharpName (((c : Int) + 12) % 12).toNat, root.octave⟩] := by
    simp only [extendPitches, h1, h2, h3, h4, h5, h6, h7]
  rw [hE]

/-- Claim C3 (counterexample): the F-major scale produced by the code is
`F G A A# C D E F`, all at octave 4 — the letter A appears at two consecutive
degrees (degree 2 is `A`, degree 3 is `A#` rather than `Bb`), and the 8th
pitch is `F4` itself, not the root transposed up one octave. -/
theorem C3_counterexample :
    ScaleSequence.make ⟨"F", 4⟩ "MAJOR" = Except.ok
      [⟨"F", 4⟩, ⟨"G", 4⟩, ⟨"A", 4⟩, ⟨"A#", 4⟩, ⟨"C", 4⟩, ⟨"D", 4⟩, ⟨"E", 4⟩, ⟨"F", 4⟩] ∧
    (Pitch.mk "A" 4).letter = (Pitch.mk "A#" 4).letter ∧
    (Pitch.mk "F" 4).offset_c0 ≠ (Pitch.mk "F" 4).offset_c0 + 12 := by decide

/-- Witness for the amended C3 at a concrete input (F major). -/
theorem C3_amended_witness :
    ScaleSequence.make ⟨"F", 4⟩ "MAJOR" = Except.ok
      [⟨"F", 4⟩, ⟨"G", 4⟩, ⟨"A", 4⟩, ⟨"A#", 4⟩, ⟨"C", 4⟩, ⟨"D", 4⟩, ⟨"E", 4⟩, ⟨"F", 4⟩] := by
  rw [C3_amended ⟨"F", 4⟩ 5 (by decide) (by decide)]
  decide

/-! ## Claim C8 -/

/-- Claim C8 (confirmed): for a valid pitch at a non-negative octave,
`step` raises `BelowRangeFloor` exactly when the target absolute offset is
negative, and succeeds otherwise (no clamping); in particular
`Pitch("C",0).step(-1)` fails. -/
theorem C8_step_error_iff (p : Pitch) (s : Int) (ro : Bool) (hv : p.valid)
    (ho : 0 ≤ p.octave) :
    (p.step s ro = Except.error PyError.belowRangeFloor ↔ p.offset_c0 + s < 0) ∧
    (0 ≤ p.offset_c0 + s → ∃ q, p.step s ro = Except.ok q) ∧
    (Pitch.mk "C" 0).step (-1) false = Except.error PyError.belowRangeFloor := by
  obtain ⟨c, hc⟩ := Option.isSome_iff_exists.mp hv
  have hoff := offset_c0_eq p c hc
  refine ⟨?_, ?_, by decide⟩
  · by_cases hs0 : s = 0
    · subst hs0
      rw [Pitch.step_zero]
      constructor
      · intro h
        exact absurd h (by simp)
      · intro h
        omega
    · by_cases hlt : p.offset_c0 + s < 0
      · unfold Pitch.step
        rw [if_neg hs0, if_pos hlt]
        simp [hlt]
      · have ht : 0 ≤ p.offset_c0 + s := by omega
        have hm : ((p.offset_c0 + s) % 12).toNat < 12 := by omega
        constructor
        · intro h
          by_cases hspos : 0 < s
          · cases ro with
            | false => rw [Pitch.step_pos_false p s hspos ht] at h; exact absurd h (by simp)
            | true => rw [Pitch.step_pos_true p s hspos ht] at h; exact absurd h (by simp)
          · have hneg : s < 0 := by omega
            cases ro with
            | false => rw [Pitch.step_neg_false p s hneg ht] at h; exact absurd h (by simp)
            | true =>
              unfold Pitch.step at h
              rw [if_neg hs0, if_neg (by omega), idx_table _ hm] at h
              exact absurd h (by simp)
        · intro h
          omega
  · intro ht
    by_cases hs0 : s = 0
    · subst hs0
      exact ⟨p, Pitch.step_zero p ro⟩
    · have hm : ((p.offset_c0 + s) % 12).toNat < 12 := by omega
      unfold Pitch.step
      rw [if_neg hs0, if_neg (by omega), idx_table _ hm]
      exact ⟨_, rfl⟩

/-- Witness for C8 at a concrete input. -/
theorem C8_step_error_witness :
    ((Pitch.mk "C" 0).step (-1) false = Except.error PyError.belowRangeFloor ↔
      (Pitch.mk "C" 0).offset_c0 + (-1) < 0) ∧
    (0 ≤ (Pitch.mk "C" 0).offset_c0 + (-1) →
      ∃ q, (Pitch.mk "C" 0).step (-1) false = Except.ok q) ∧
    (Pitch.mk "C" 0).step (-1) false = Except.error PyError.belowRangeFloor :=
  C8_step_error_iff (Pitch.mk "C" 0) (-1) false (by decide) (by decide)

/-! ## Claim C9 -/

/-- Claim C9 (confirmed): the triad generator yields exactly `n - 1` tuples,
the `i`-th being `(pitches[i], pitches[(i+2) % n], pitches[(i+4) % n])` in
non-extended mode (the pure-list model makes every enumeration restart from
`i = 0`); the first non-extended triad of the C-major scale on `C4` is
`(C4, E4, G4)`. -/
theorem C9_triads (pitches : List Pitch) :
    (ScaleSequence.triadsGen pitches false).length = pitches.length - 1 ∧
    (∀ i, i < pitches.length - 1 →
      (ScaleSequence.triadsGen pitches false).getD i [] =
        [pitches.getD i dummyPitch,
         pitches.getD ((i + 2) % pitches.length) dummyPitch,
         pitches.getD ((i + 4) % pitches.length) dummyPitch]) ∧
    (ScaleSequence.make ⟨"C", 4⟩ "MAJOR").map
        (fun ps => (ScaleSequence.triadsGen ps false).getD 0 []) =
      Except.ok [⟨"C", 4⟩, ⟨"E", 4⟩, ⟨"G", 4⟩] := by
  refine ⟨by simp [ScaleSequence.triadsGen], ?_, by decide⟩
  intro i hi
  unfold ScaleSequence.triadsGen
  rw [List.getD_eq_getElem _ _ (by simpa using hi)]
  simp [hi]

/-- Witness for C9 at a concrete input. -/
theorem C9_triads_witness :
    (ScaleSequence.triadsGen [⟨"C", 4⟩, ⟨"D", 4⟩, ⟨"E", 4⟩] false).getD 0 [] =
      [⟨"C", 4⟩, ⟨"E", 4⟩, ⟨"D", 4⟩] := by
  rw [(C9_triads [⟨"C", 4⟩, ⟨"D", 4⟩, ⟨"E", 4⟩]).2.1 0 (by norm_num)]
  decide

/-! ## Claim C6 -/

/-- A fret row evaluates pointwise when every step succeeds. -/
theorem collectSteps_ok (p : Pitch) (v : Nat → Pitch) (l : List Nat)
    (H : ∀ f ∈ l, p.step (f : Int) false = Except.ok (v f)) :
    collectSteps p l = Except.ok (l.map v) := by
  induction l with
  | nil => rfl
  | cons x xs ih =>
    have hx := H x (List.mem_cons_self x xs)
    have hxs := ih (fun a ha => H a (List.mem_cons_of_mem x ha))
    simp [collectSteps, hx, hxs]

/-- One fret row of a valid open-string pitch: fret 0 is the open string, and
every later fret `f` is the sharp spelling of the class of `offset + f` with
octave `(offset + f) // 12`. -/
theorem Fretboard.row_eq (p : Pitch) (c : Nat) (hc : PITCHES_TO_INDEX p.note = some c)
    (ho : 0 ≤ p.octave) (n : Nat) :
    Fretboard.row p n = Except.ok ((List.range (n + 1)).map (fun (f : Nat) =>
      if f = 0 then p
      else ⟨sharpName ((p.offset_c0 + (f : Int)) % 12).toNat,
            (p.offset_c0 + (f : Int)) / 12⟩)) := by
  unfold Fretboard.row
  apply collectSteps_ok
  intro f hf
  have hoff := offset_c0_eq p c hc
  by_cases h0 : f = 0
  · subst h0
    simpa using Pitch.step_zero p false
  · rw [if_neg h0]
    exact Pitch.step_pos_false p (f : Int) (by omega) (by omega)

/-- The board evaluates pointwise when every row succeeds. -/
theorem Fretboard.board_ok (tuning : List Pitch) (n : Nat) (rv : Pitch → List Pitch)
    (H : ∀ p ∈ tuning, Fretboard.row p n = Except.ok (rv p)) :
    Fretboard.board tuning n = Except.ok (tuning.map rv) := by
  induction tuning with
  | nil => rfl
  | cons x xs ih =>
    have hx := H x (List.mem_cons_self x xs)
    have hxs := ih (fun a ha => H a (List.mem_cons_of_mem x ha))
    simp [Fretboard.board, hx, hxs]

/-- Claim C6 (confirmed, spec-modelled `Fretboard`): for a tuning of valid
pitches at non-negative octaves and a fret count of at least 12, the board has
one row per string, each row has `fretCount + 1` entries, entry 0 is the open
string, and entry 12 sits exactly 12 semitones above entry 0. -/
theorem C6_fretboard (tuning : List Pitch) (fretCount : Nat)
    (hv : ∀ p ∈ tuning, p.valid ∧ 0 ≤ p.octave) (h12 : 12 ≤ fretCount) :
    ∃ board, Fretboard.board tuning fretCount = Except.ok board ∧
      board.length = tuning.length ∧
      ∀ i, (hi : i < tuning.length) →
        (board.getD i []).length = fretCount + 1 ∧
        (board.getD i []).getD 0 dummyPitch = tuning[i] ∧
        ((board.getD i []).getD 12 dummyPitch).offset_c0 = tuning[i].offset_c0 + 12 := by
  refine ⟨tuning.map (fun p => (List.range (fretCount + 1)).map (fun (f : Nat) =>
      if f = 0 then p
      else ⟨sharpName ((p.offset_c0 + (f : Int)) % 12).toNat,
            (p.offset_c0 + (f : Int)) / 12⟩)), ?_, by simp, ?_⟩
  · apply Fretboard.board_ok
    intro p hp
    obtain ⟨cp, hcp⟩ := Option.isSome_iff_exists.mp (hv p hp).1
    exact Fretboard.row_eq p cp hcp (hv p hp).2 fretCount
  · intro i hi
    obtain ⟨c, hc⟩ := Option.isSome_iff_exists.mp (hv tuning[i] (List.getElem_mem hi)).1
    have ho : 0 ≤ tuning[i].octave := (hv tuning[i] (List.getElem_mem hi)).2
    have hoff := offset_c0_eq tuning[i] c hc
    rw [List.getD_eq_getElem _ _ (by simpa using hi)]
    rw [List.getElem_map]
    refine ⟨by simp, ?_, ?_⟩
    · rw [List.getD_eq_getElem _ _ (by simp), List.getElem_map]
      simp
    · rw [List.getD_eq_getElem _ _ (by simp; omega), List.getElem_map]
      rw [List.getElem_range]
      rw [if_neg (by norm_num)]
      rw [offset_c0_mk _ _ _ (sharp_resolves _ (by omega))]
      omega

/-- Witness for C6: the default 6-string standard tuning with 24 frets. -/
theorem C6_fretboard_witness :
    ∃ board, Fretboard.board standardTuning 24 = Except.ok board ∧
      board.length = standardTuning.length ∧
      ∀ i, (hi : i < standardTuning.length) →
        (board.getD i []).length = 24 + 1 ∧
        (board.getD i []).getD 0 dummyPitch = standardTuning[i] ∧
        ((board.getD i []).getD 12 dummyPitch).offset_c0 = standardTuning[i].offset_c0 + 12 :=
  C6_fretboard standardTuning 24 (by decide) (by norm_num)

end Muse
